import Mathlib

/-!
Verification of the celery worker core: the ETA scheduler
(`src/celery/worker/scheduler.py`) and the control plane
(`src/celery/worker/control.py`).

Shallow embedding conventions:
* timestamps (`time.time()` / `time.mktime`) are modelled as `Int`;
* `heapq` is a min-heap over tuples compared lexicographically; it is
  modelled by its contract: the heap is kept as a list sorted by the
  entry order, `heappush` is ordered insertion, `heappop`/`q[0]` take
  the head (the minimum);
* the generator `Scheduler.__iter__` is modelled as a step function on
  an explicit program counter: `PC.top` means the generator is about to
  run the loop body from `if q:`, `PC.afterBody` means it is suspended
  just before the trailing `yield None` statement at the bottom of the
  loop body.  Each `next()` call on the iterator (one `Advance`) is one
  application of `advance`;
* payloads are identified by `Nat`, callbacks by `Option Nat` (`None`
  or a callback identifier); `callback and callback()` is modelled by
  recording the fired callback identifiers.
-/

namespace CeleryWorker

/-- A scheduler entry: the tuple `(eta, priority, item, callback)` pushed by
`Scheduler.enter`.  `heapq` compares these tuples lexicographically. -/
structure Entry where
  eta : Int
  priority : Int
  item : Nat
  callback : Option Nat
deriving DecidableEq, Repr

/-- Python-2 comparison of the `callback` slot: `None` sorts below
everything, callback identifiers are compared between themselves. -/
def cbLe : Option Nat → Option Nat → Prop
  | none, _ => True
  | some _, none => False
  | some a, some b => a ≤ b

instance : DecidableRel cbLe := fun a b => by
  cases a <;> cases b <;> simp only [cbLe] <;> infer_instance

/-- The lexicographic order on entry tuples used by `heapq`:
`(eta, priority, item, callback)` compared componentwise. -/
def entryLe (a b : Entry) : Prop :=
  a.eta < b.eta ∨ (a.eta = b.eta ∧ (a.priority < b.priority ∨ (a.priority = b.priority ∧
    (a.item < b.item ∨ (a.item = b.item ∧ cbLe a.callback b.callback)))))

instance : DecidableRel entryLe := fun a b => by
  unfold entryLe; infer_instance

instance : IsTotal Entry entryLe := by
  constructor
  intro a b
  obtain ⟨ae, ap, ai, ac⟩ := a
  obtain ⟨be, bp, bi, bc⟩ := b
  simp only [entryLe, cbLe]
  cases ac <;> cases bc <;>
    simp only [cbLe, and_true, and_false, or_false] <;> omega

instance : IsTrans Entry entryLe := by
  constructor
  intro a b c hab hbc
  obtain ⟨ae, ap, ai, ac⟩ := a
  obtain ⟨be, bp, bi, bc⟩ := b
  obtain ⟨ce, cp, ci, cc⟩ := c
  simp only [entryLe, cbLe] at hab hbc ⊢
  cases ac <;> cases bc <;> cases cc <;>
    simp only [cbLe, and_true, and_false, or_false] at hab hbc ⊢ <;> omega

/-- `heapq.heappush(q, e)`: modelled by its contract on the sorted-list
representation of the heap, as ordered insertion. -/
def heappush (q : List Entry) (e : Entry) : List Entry :=
  List.orderedInsert entryLe e q

/-- Where the generator `Scheduler.__iter__` is suspended: `top` = about to
execute the loop body from `if q:`; `afterBody` = about to execute the
trailing `yield None` at the bottom of the `while True:` body. -/
inductive PC
  | top
  | afterBody
deriving DecidableEq, Repr

/-- State of one `Scheduler` plus its collaborators: `q` is `self._queue`
(sorted-list model of the heap), `ready` records each `ready_queue.put(item)`
together with the time `now` at which the promotion happened (the real queue
receives only `item`; the entry and the time are ghost data for
specification), `fired` records the identifiers of invoked callbacks, and
`pc` is the generator's suspension point. -/
structure SchedState where
  q : List Entry
  ready : List (Entry × Int)
  fired : List Nat
  pc : PC
deriving DecidableEq, Repr

/-- A fresh scheduler: `self._queue = []`, nothing promoted, generator not
yet started (first `next()` runs from the top of the loop). -/
def initState : SchedState :=
  { q := [], ready := [], fired := [], pc := .top }

/-- `Scheduler.enter(item, eta, priority, callback)`:
`eta = time.mktime(eta.timetuple()) if eta else time.time()` (a `datetime`
is always truthy, so `none` models an omitted/`None` eta and resolves to
`now`), then `heapq.heappush(self._queue, (eta, priority, item, callback))`. -/
def enter (s : SchedState) (now : Int) (item : Nat) (eta : Option Int)
    (priority : Int) (callback : Option Nat) : SchedState :=
  let e := eta.getD now
  { s with q := heappush s.q { eta := e, priority := priority, item := item,
                               callback := callback } }

/-- One `next()` on the iterator returned by `Scheduler.__iter__`, taken at
time `now`; returns the new state and the yielded value (`none` models the
Python `yield None`, `some d` models `yield eta - now` or `yield 0`).

From `PC.afterBody` the generator executes `yield None` and loops back to
the top.  From `PC.top` with an empty queue the `if q:` block is skipped and
`yield None` executes, looping back to the top.  Otherwise the minimum
`verify = q[0]` is peeked: if `now < eta` the generator yields `eta - now`
and suspends before the trailing `yield None`; else it pops, and since the
pop takes the head just peeked the identity check `event is verify`
succeeds, so the item is put on the ready queue, the callback fires
(`callback and callback()`), and `yield 0` suspends before the trailing
`yield None`.  The contested branch (`heappush(q, event)`, then falling
through to `yield None`) is kept for faithfulness although it is
unreachable in this sequential model. -/
def advance (s : SchedState) (now : Int) : SchedState × Option Int :=
  match s.pc with
  | .afterBody => ({ s with pc := .top }, none)
  | .top =>
    match s.q with
    | [] => (s, none)
    | verify :: rest =>
      if now < verify.eta then
        ({ s with pc := .afterBody }, some (verify.eta - now))
      else
        let event := verify
        if event = verify then
          ({ s with q := rest,
                    ready := s.ready ++ [(event, now)],
                    fired := s.fired ++ event.callback.toList,
                    pc := .afterBody }, some 0)
        else
          ({ s with q := heappush rest event }, none)

/-- `Scheduler.empty()`: `not self._queue`. -/
def emptyFn (s : SchedState) : Bool :=
  s.q.isEmpty

/-- `events = list(self._queue)` followed by
`map(heapq.heappop, [events]*len(events))`: repeatedly pop the minimum of
the copied heap, collecting the results. In the sorted-list model of the
heap, popping the minimum is taking the head. -/
def drainHeap : List Entry → List Entry
  | [] => []
  | e :: rest => e :: drainHeap rest

/-- The `Scheduler.queue` property: copies the heap and drains the copy;
returns the drained sequence together with the scheduler state after the
read (the pops act on the copy `events`, so the state is unchanged). -/
def queueSnapshot (s : SchedState) : List Entry × SchedState :=
  let events := s.q
  (drainHeap events, s)

/-- An external stimulus to the scheduler: a producer calling `enter` or
the driving loop calling `next()` on the iterator. -/
inductive Op
  | enter (item : Nat) (eta : Option Int) (priority : Int) (callback : Option Nat)
  | advance
deriving DecidableEq, Repr

/-- Apply one timestamped stimulus. -/
def step (s : SchedState) (now : Int) : Op → SchedState
  | .enter item eta priority callback => enter s now item eta priority callback
  | .advance => (advance s now).1

/-- Run a finite interleaving of timestamped `enter` and `advance` calls. -/
def run (s : SchedState) (ops : List (Int × Op)) : SchedState :=
  ops.foldl (fun s p => step s p.1 p.2) s

/-- The entries created by the `enter` calls of a stimulus list, with the
eta each one resolves to at its own call time. -/
def enteredEntries (ops : List (Int × Op)) : List Entry :=
  ops.filterMap fun p =>
    match p.2 with
    | .enter item eta priority callback =>
        some { eta := eta.getD p.1, priority := priority, item := item,
               callback := callback }
    | .advance => none

/-!
Control-plane embedding (src/celery/worker/control.py).

Message and keyword-argument values are either strings (task ids, task
names, hostnames) or rate-limit values; a rate-limit value is `none`
(Python `None`, no limit) or a numeric limit.  Python truthiness is
modelled per value.  The logger is modelled as an append-only list of
(level, text) pairs.
-/

/-- Value carried by a control-message field or keyword argument. -/
inductive Val
  | str (s : String)
  | rate (v : Option Nat)
deriving DecidableEq, Repr

/-- Python truthiness of a value: the empty string, `None` and `0` are
falsy, everything else truthy. -/
def Val.truthy : Val → Bool
  | .str s => s != ""
  | .rate none => false
  | .rate (some n) => n != 0

/-- Rendering of a value by `"%s"` string interpolation. -/
def Val.format : Val → String
  | .str s => s
  | .rate none => "None"
  | .rate (some n) => toString n

/-- Log levels used by the control plane (`logger.warn`, `logger.error`). -/
inductive LogLevel
  | warn
  | error
deriving DecidableEq, Repr

/-- Modelled from the spec: the task-type descriptor held by the task
registry (`celery.registry` is not part of the source excerpt).  Per §3,
it has a mutable `rate_limit` field and other static configuration, here
collapsed into one opaque `config` field that this core never touches. -/
structure TaskDescr where
  rate_limit : Val
  config : Nat
deriving DecidableEq, Repr

/-- Shared mutable state touched by the control plane: the revocation set
(`celery.worker.revoke.revoked`), the task registry
(`celery.registry.tasks`) and the logger's output. -/
structure WorkerState where
  revoked : List Val
  registry : List (String × TaskDescr)
  log : List (LogLevel × String)
deriving DecidableEq, Repr

/-- Modelled from the spec: `revoked.add(task_id)` — the revocation set
(`celery.worker.revoke` is not part of the source excerpt) is a set of
task ids per §4.2, so `Add` is an idempotent insert. -/
def revokedAdd (r : List Val) (t : Val) : List Val :=
  if t ∈ r then r else r ++ [t]

/-- Modelled from the spec: lookup in the task registry
(`celery.registry` is not part of the source excerpt); `tasks[name]`
raises `KeyError` exactly when the lookup comes back empty (§4.3:
`Get(name) -> descriptor or not-found`). -/
def registryGet (reg : List (String × TaskDescr)) (name : String) : Option TaskDescr :=
  (reg.find? (fun p => p.1 == name)).map Prod.snd

/-- Overwriting the binding of `name` in the registry in place; no other
binding changes and no binding is created. -/
def registrySet (reg : List (String × TaskDescr)) (name : String)
    (d : TaskDescr) : List (String × TaskDescr) :=
  reg.map fun p => if p.1 == name then (p.1, d) else p

/-- Method `Control.revoke(task_id, **kwargs)`: `revoked.add(task_id)` then
`logger.warn("Task %s revoked." % task_id)`. -/
def Control.revoke (st : WorkerState) (task_id : Val) : WorkerState :=
  { st with
      revoked := revokedAdd st.revoked task_id,
      log := st.log ++ [(.warn, "Task " ++ task_id.format ++ " revoked.")] }

/-- Method `Control.rate_limit(task_name, rate_limit, **kwargs)`:
`tasks[task_name].rate_limit = rate_limit` under `except KeyError: return`
(lookup with a non-string key also raises `KeyError` since registry keys
are strings), then a `logger.warn` whose text depends on the truthiness of
`rate_limit`. -/
def Control.rate_limit (st : WorkerState) (task_name : Val) (rl : Val) :
    WorkerState :=
  match task_name with
  | .rate _ => st
  | .str name =>
    match registryGet st.registry name with
    | none => st
    | some d =>
      let st' := { st with
        registry := registrySet st.registry name { d with rate_limit := rl } }
      if rl.truthy then
        { st' with log := st'.log ++
            [(.warn, "New rate limit for tasks of type " ++ name ++ ": " ++
                     rl.format ++ ".")] }
      else
        { st' with log := st'.log ++
            [(.warn, "Disabled rate limits for tasks of type " ++ name)] }

/-- Errors a dispatch can raise to its caller. -/
inductive PyError
  | keyError
  | attrError
  | typeError
deriving DecidableEq, Repr

/-- Commands defined on the control panel and marked by the `@expose`
decorator (`fun.exposed = True`). -/
inductive PanelCommand
  | revokeCmd
  | rateLimitCmd
deriving DecidableEq, Repr

/-- Result of `getattr(self.panel, name)` when it succeeds: either an
exposed command, or a plain attribute that carries no `exposed` flag. -/
inductive PanelAttr
  | exposedCommand (c : PanelCommand)
  | plainAttr
deriving DecidableEq, Repr

/-- Attribute namespace of a `Control` panel instance as defined in the
source: the methods `revoke` and `rate_limit` (decorated with `@expose`,
so their `exposed` flag is `True`), and the instance attributes `logger`
and `hostname` set in `__init__`, which exist but carry no `exposed`
flag.  Attribute machinery inherited from `object` behaves like
`logger`/`hostname`; a few such names are listed.  `getattr` on any other
name raises `AttributeError`. -/
def panelAttr (name : String) : Option PanelAttr :=
  if name = "revoke" then some (.exposedCommand .revokeCmd)
  else if name = "rate_limit" then some (.exposedCommand .rateLimitCmd)
  else if name ∈ ["logger", "hostname", "__init__", "__class__", "__doc__",
                  "__module__", "__dict__"] then some .plainAttr
  else none

/-- First binding of key `k` in a mapping, as in a Python `dict` lookup. -/
def kwLookup (m : List (String × Val)) (k : String) : Option Val :=
  (m.find? (fun p => p.1 == k)).map Prod.snd

/-- Removal of the binding of key `k`, as done by `dict.pop`. -/
def eraseKey (m : List (String × Val)) (k : String) : List (String × Val) :=
  m.filter fun p => p.1 != k

/-- Invocation `control(**kwargs)` of an exposed command: Python binds the
keyword arguments against the handler's signature, raising `TypeError`
before the body runs when a required parameter is missing; extra keyword
arguments are absorbed by `**kwargs`. -/
def invokeCommand (st : WorkerState) (c : PanelCommand)
    (kwargs : List (String × Val)) : WorkerState × Except PyError Unit :=
  match c with
  | .revokeCmd =>
    match kwLookup kwargs "task_id" with
    | none => (st, .error .typeError)
    | some tid => (Control.revoke st tid, .ok ())
  | .rateLimitCmd =>
    match kwLookup kwargs "task_name", kwLookup kwargs "rate_limit" with
    | some tn, some rl => (Control.rate_limit st tn rl, .ok ())
    | none, _ => (st, .error .typeError)
    | _, none => (st, .error .typeError)

/-- Method `ControlDispatch.execute(command, kwargs)`:
`control = getattr(self.panel, command)` under `except AttributeError`;
then `if control is None or not control.exposed:` log
`"No such control command: %s" % command` — but evaluating
`control.exposed` on an attribute that carries no `exposed` flag itself
raises an `AttributeError`, which this method does not catch; otherwise
call `control(**kwargs)`. -/
def execute (st : WorkerState) (command : String)
    (kwargs : List (String × Val)) : WorkerState × Except PyError Unit :=
  match panelAttr command with
  | none =>
      ({ st with
          log := st.log ++ [(.error, "No such control command: " ++ command)] },
       .ok ())
  | some .plainAttr => (st, .error .attrError)
  | some (.exposedCommand c) => invokeCommand st c kwargs

/-- Method `ControlDispatch.dispatch_from_message(message)`; `hostname` is
`self.hostname`.  Returns the worker state, the caller's message object
after the call, and the outcome.  The source first does
`message = dict(message)` — "don't modify callers message" — so the two
`pop` calls mutate only the local copy `msgDict` and the caller's message
comes back unchanged.  `message.pop("command")` raises `KeyError` when the
key is absent; `message.pop("destination", None)` defaults to `None`.
The addressing test is `if not destination or destination == self.hostname`
(a falsy destination — absent, `None` or `""` — also proceeds).  `getattr`
with a non-string command name raises `TypeError`. -/
def dispatch_from_message (st : WorkerState) (hostname : String)
    (message : List (String × Val)) :
    WorkerState × List (String × Val) × Except PyError Unit :=
  let msgDict := message
  match kwLookup msgDict "command" with
  | none => (st, message, .error .keyError)
  | some cmd =>
    let rest := eraseKey msgDict "command"
    let destination := kwLookup rest "destination"
    let kwargs := eraseKey rest "destination"
    let proceed : Bool :=
      match destination with
      | none => true
      | some v => !v.truthy || (v == Val.str hostname)
    if proceed then
      match cmd with
      | .str name =>
        let r := execute st name kwargs
        (r.1, message, r.2)
      | .rate _ => (st, message, .error .typeError)
    else
      (st, message, .ok ())

/-!
Scheduler invariants: the queue stays sorted (heap invariant of the
sorted-list model), entries are conserved (an entry is either still
queued or promoted exactly once), and promotions never happen before the
entry's eta.
-/

lemma sorted_heappush {q : List Entry} (h : List.Sorted entryLe q) (e : Entry) :
    List.Sorted entryLe (heappush q e) :=
  List.Sorted.orderedInsert e q h

lemma sorted_advance {s : SchedState} (t : Int)
    (h : List.Sorted entryLe s.q) :
    List.Sorted entryLe ((advance s t).1.q) := by
  obtain ⟨q, ready, fired, pc⟩ := s
  cases pc with
  | afterBody => exact h
  | top =>
    cases q with
    | nil => exact h
    | cons e rest =>
      by_cases hlt : t < e.eta
      · simp only [advance, if_pos hlt]
        exact h
      · simp only [advance, if_neg hlt, if_pos rfl]
        exact h.of_cons

lemma sorted_step {s : SchedState} (t : Int) (op : Op)
    (h : List.Sorted entryLe s.q) :
    List.Sorted entryLe ((step s t op).q) := by
  cases op with
  | enter item eta priority callback => exact sorted_heappush h _
  | advance => exact sorted_advance t h

lemma sorted_run (ops : List (Int × Op)) (s : SchedState)
    (h : List.Sorted entryLe s.q) :
    List.Sorted entryLe ((run s ops).q) := by
  induction ops generalizing s with
  | nil => exact h
  | cons p rest ih =>
    simp only [run, List.foldl_cons]
    exact ih _ (sorted_step p.1 p.2 h)

/-- Entries accounted for by a scheduler state: the ones still queued plus
the ones already promoted to the ready queue. -/
def entriesOf (s : SchedState) : Multiset Entry :=
  (s.q : Multiset Entry) + ((s.ready.map Prod.fst : List Entry) : Multiset Entry)

lemma entriesOf_advance (s : SchedState) (t : Int) :
    entriesOf ((advance s t).1) = entriesOf s := by
  obtain ⟨q, ready, fired, pc⟩ := s
  cases pc with
  | afterBody => rfl
  | top =>
    cases q with
    | nil => rfl
    | cons e rest =>
      by_cases hlt : t < e.eta
      · simp only [advance, if_pos hlt]
        rfl
      · simp only [advance, if_neg hlt, if_pos rfl, eq_self_iff_true, if_true, entriesOf,
          List.map_append, List.map_cons, List.map_nil]
        simp only [Multiset.coe_singleton, ← Multiset.cons_coe,
          ← Multiset.singleton_add]
        simp [add_comm, add_left_comm, add_assoc]
        exact List.Perm.append_left rest (List.perm_append_singleton e _)

lemma entriesOf_step (s : SchedState) (t : Int) (op : Op) :
    entriesOf (step s t op) =
      (match op with
       | .enter item eta priority callback =>
           {⟨eta.getD t, priority, item, callback⟩}
       | .advance => 0) + entriesOf s := by
  cases op with
  | enter item eta priority callback =>
    simp only [step, enter, entriesOf, heappush]
    have hperm := List.perm_orderedInsert entryLe
      (⟨eta.getD t, priority, item, callback⟩ : Entry) s.q
    rw [← Multiset.coe_eq_coe] at hperm
    simp only [hperm]
    simp [add_assoc]
  | advance =>
    simp only [step, entriesOf_advance, zero_add]

lemma entriesOf_run (ops : List (Int × Op)) (s : SchedState) :
    entriesOf (run s ops) = ↑(enteredEntries ops) + entriesOf s := by
  induction ops generalizing s with
  | nil => simp [run, enteredEntries]
  | cons p rest ih =>
    obtain ⟨t, op⟩ := p
    simp only [run, List.foldl_cons] at *
    rw [ih]
    cases op with
    | enter item eta priority callback =>
      have h := entriesOf_step s t (.enter item eta priority callback)
      simp only at h
      rw [h]
      simp only [enteredEntries, List.filterMap_cons]
      simp [Multiset.cons_add, ← Multiset.cons_coe]
    | advance =>
      have h := entriesOf_step s t .advance
      simp only at h
      rw [h]
      simp [enteredEntries, List.filterMap_cons]

lemma ready_eta_le_advance {s : SchedState} (t : Int)
    (h : ∀ p ∈ s.ready, p.1.eta ≤ p.2) :
    ∀ p ∈ (advance s t).1.ready, p.1.eta ≤ p.2 := by
  obtain ⟨q, ready, fired, pc⟩ := s
  cases pc with
  | afterBody => exact h
  | top =>
    cases q with
    | nil => exact h
    | cons e rest =>
      by_cases hlt : t < e.eta
      · simp only [advance, if_pos hlt]
        exact h
      · simp only [advance, if_neg hlt, if_pos rfl]
        intro p hp
        rcases List.mem_append.mp hp with hp | hp
        · exact h p hp
        · simp only [List.mem_singleton] at hp
          subst hp
          simpa using le_of_not_lt hlt

lemma ready_eta_le_run (ops : List (Int × Op)) (s : SchedState)
    (h : ∀ p ∈ s.ready, p.1.eta ≤ p.2) :
    ∀ p ∈ (run s ops).ready, p.1.eta ≤ p.2 := by
  induction ops generalizing s with
  | nil => exact h
  | cons p rest ih =>
    simp only [run, List.foldl_cons]
    apply ih
    cases hop : p.2 with
    | enter item eta priority callback => simpa [step, hop, enter] using h
    | advance => exact ready_eta_le_advance p.1 h

lemma entryLe_refl (a : Entry) : entryLe a a := by
  obtain ⟨ae, ap, ai, ac⟩ := a
  simp only [entryLe, cbLe]
  cases ac <;> simp [cbLe]

/-- Strict precedence on the `(due_time, priority)` key. -/
def keyLt (a b : Entry) : Prop :=
  a.eta < b.eta ∨ (a.eta = b.eta ∧ a.priority < b.priority)

instance : DecidableRel keyLt := fun a b => by
  unfold keyLt; infer_instance

/-- Weak precedence on the `(due_time, priority)` key (ascending order). -/
def keyLe (a b : Entry) : Prop :=
  a.eta < b.eta ∨ (a.eta = b.eta ∧ a.priority ≤ b.priority)

lemma keyLt_not_entryLe {A B : Entry} (h : keyLt A B) : ¬ entryLe B A := by
  intro hle
  obtain ⟨ae, ap, ai, ac⟩ := A
  obtain ⟨be, bp, bi, bc⟩ := B
  simp only [keyLt, entryLe] at h hle
  rcases hle with h1 | ⟨h1, h2 | ⟨h2, h3⟩⟩ <;> omega

lemma entryLe_keyLe {a b : Entry} (h : entryLe a b) : keyLe a b := by
  obtain ⟨ae, ap, ai, ac⟩ := a
  obtain ⟨be, bp, bi, bc⟩ := b
  simp only [entryLe, keyLe] at h ⊢
  rcases h with h | ⟨h1, h | ⟨h2, h3⟩⟩ <;> omega

lemma drainHeap_eq (l : List Entry) : drainHeap l = l := by
  induction l with
  | nil => rfl
  | cons e rest ih => simp [drainHeap, ih]

lemma heappush_eq_cons {q : List Entry} {e : Entry}
    (h : ∀ x ∈ q, e.eta < x.eta) : heappush q e = e :: q := by
  cases q with
  | nil => rfl
  | cons x xs =>
    have hle : entryLe e x := Or.inl (h x (List.mem_cons_self x xs))
    simp [heappush, List.orderedInsert, hle]

/-- An entry appended to the ready queue by one `advance` is the minimum of
the frontier at that moment. -/
lemma promoted_is_min {s : SchedState} (hsort : List.Sorted entryLe s.q)
    {B : Entry} {t : Int}
    (h : (advance s t).1.ready = s.ready ++ [(B, t)]) :
    B ∈ s.q ∧ ∀ e ∈ s.q, entryLe B e := by
  obtain ⟨q, ready, fired, pc⟩ := s
  simp only at hsort ⊢
  cases pc with
  | afterBody =>
    exfalso
    simp only [advance] at h
    have := congrArg List.length h
    simp at this
  | top =>
    cases q with
    | nil =>
      exfalso
      simp only [advance] at h
      have := congrArg List.length h
      simp at this
    | cons e rest =>
      by_cases hlt : t < e.eta
      · exfalso
        simp only [advance, if_pos hlt] at h
        have := congrArg List.length h
        simp at this
      · simp only [advance, if_neg hlt, eq_self_iff_true, if_true] at h
        have hBe : e = B := by
          have h2 := List.append_cancel_left h
          simp at h2
          exact h2
        rw [← hBe]
        refine ⟨List.mem_cons_self e rest, ?_⟩
        intro x hx
        rcases List.mem_cons.mp hx with hx2 | hx2
        · rw [hx2]; exact entryLe_refl e
        · exact List.rel_of_sorted_cons hsort x hx2

/-- C1: for every finite interleaving of `enter` calls (arbitrary etas) and
repeated `advance` calls with time moving forward, starting from a fresh
scheduler, the multiset of entered entries equals the still-queued ones
plus the promoted ones — so no entry is ever promoted twice, and once the
frontier is drained each entered entry has been promoted exactly once —
and every promotion happened at a time no earlier than the promoted
entry's eta (promotion exactly at the eta is allowed). -/
theorem no_double_promotion (ops : List (Int × Op))
    (hmono : List.Chain' (fun a b : Int × Op => a.1 ≤ b.1) ops) :
    ((enteredEntries ops : Multiset Entry) =
        ↑((run initState ops).q) + ↑((run initState ops).ready.map Prod.fst))
    ∧ (∀ p ∈ (run initState ops).ready, p.1.eta ≤ p.2)
    ∧ ((run initState ops).q = [] →
        (enteredEntries ops : Multiset Entry) =
          ↑((run initState ops).ready.map Prod.fst)) := by
  have hc : (↑((run initState ops).q) : Multiset Entry) +
      ↑((run initState ops).ready.map Prod.fst) = ↑(enteredEntries ops) := by
    have h := entriesOf_run ops initState
    simpa [entriesOf, initState] using h
  refine ⟨hc.symm, ready_eta_le_run ops initState (by simp [initState]), ?_⟩
  intro hq
  rw [← hc, hq]
  simp

/-- Witness for C1 at a concrete interleaving: one entry due at 5, advances
at times 2, 5, 6, 7. -/
theorem no_double_promotion_witness :
    (∀ p ∈ (run initState [((0:Int), Op.enter 1 (some 5) 0 none),
        (2, .advance), (5, .advance), (6, .advance), (7, .advance)]).ready,
      p.1.eta ≤ p.2)
    ∧ ((enteredEntries [((0:Int), Op.enter 1 (some 5) 0 none), (2, .advance),
          (5, .advance), (6, .advance), (7, .advance)] : Multiset Entry) =
        ↑((run initState [((0:Int), Op.enter 1 (some 5) 0 none), (2, .advance),
          (5, .advance), (6, .advance), (7, .advance)]).ready.map Prod.fst)) := by
  have h := no_double_promotion
    [((0:Int), Op.enter 1 (some 5) 0 none), (2, .advance), (5, .advance),
     (6, .advance), (7, .advance)] (by simp [List.chain'_cons])
  exact ⟨h.2.1, h.2.2 (by decide)⟩

/-- Counterexample to C2 as stated: after one `enter` (eta 10) and one
`advance` at time 1 (which yields the hint 9), the generator is suspended
before the trailing `yield None`, so the next `advance` at time 2 returns
no hint although the frontier is non-empty and its minimum eta is strictly
in the future. -/
theorem advance_hint_counterexample :
    (run initState [((0:Int), Op.enter 7 (some 10) 0 none), (1, .advance)]).q ≠ []
    ∧ (∀ e ∈ (run initState [((0:Int), Op.enter 7 (some 10) 0 none),
        (1, .advance)]).q, (2:Int) < e.eta)
    ∧ (advance (run initState [((0:Int), Op.enter 7 (some 10) 0 none),
        (1, .advance)]) 2).2 = none := by
  decide

/-- C2 amended: an `advance` made while the generator is at the top of its
loop behaves as the claim states — empty frontier: no hint, no mutation;
non-empty frontier with the minimum strictly in the future: hint
`eta - now`, frontier and ready queue untouched — but each such hint is
followed by one `advance` (the resume at the trailing `yield None`) that
returns no hint and mutates nothing, so the claimed behaviour holds on
alternating calls rather than on every call. -/
theorem advance_hint_amended (s : SchedState) (t : Int) :
    (s.pc = .top → s.q = [] → advance s t = (s, none))
    ∧ (∀ e rest, s.pc = .top → s.q = e :: rest → t < e.eta →
        advance s t = ({ s with pc := .afterBody }, some (e.eta - t)))
    ∧ (s.pc = .afterBody → advance s t = ({ s with pc := .top }, none)) := by
  obtain ⟨q, ready, fired, pc⟩ := s
  refine ⟨?_, ?_, ?_⟩
  · intro hpc hq
    simp only at hpc hq
    subst hpc; subst hq
    rfl
  · intro e rest hpc hq hlt
    simp only at hpc hq
    subst hpc; subst hq
    simp [advance, if_pos hlt]
  · intro hpc
    simp only at hpc
    subst hpc
    rfl

/-- Witness for the amended C2 at concrete states. -/
theorem advance_hint_amended_witness :
    advance ⟨[], [], [], .top⟩ 3 = (⟨[], [], [], .top⟩, none)
    ∧ advance ⟨[⟨10, 0, 7, none⟩], [], [], .top⟩ 3 =
        (⟨[⟨10, 0, 7, none⟩], [], [], .afterBody⟩, some 7)
    ∧ advance ⟨[⟨10, 0, 7, none⟩], [], [], .afterBody⟩ 3 =
        (⟨[⟨10, 0, 7, none⟩], [], [], .top⟩, none) :=
  ⟨(advance_hint_amended ⟨[], [], [], .top⟩ 3).1 rfl rfl,
   (advance_hint_amended ⟨[⟨10, 0, 7, none⟩], [], [], .top⟩ 3).2.1
     ⟨10, 0, 7, none⟩ [] rfl rfl (by decide),
   (advance_hint_amended ⟨[⟨10, 0, 7, none⟩], [], [], .afterBody⟩ 3).2.2 rfl⟩

/-- C5: in any state reached from a fresh scheduler, if entries A and B are
both in the frontier and A strictly precedes B on the (due_time, priority)
key, then the next `advance` never promotes B (whatever the current time,
in particular when both are due): B can only be promoted after A has left
the frontier, so A is promoted no later than B, and among entries of equal
due_time the smaller priority goes first. -/
theorem promotion_ordering (ops : List (Int × Op)) (A B : Entry) (t : Int)
    (hA : A ∈ (run initState ops).q) (hB : B ∈ (run initState ops).q)
    (hAB : keyLt A B) :
    (advance (run initState ops) t).1.ready ≠
      (run initState ops).ready ++ [(B, t)] := by
  intro hready
  have hsort : List.Sorted entryLe (run initState ops).q :=
    sorted_run ops initState (by simp [initState])
  have hmin := promoted_is_min hsort hready
  exact keyLt_not_entryLe hAB (hmin.2 A hA)

/-- Witness for C5: two due entries, the later-due one is not the one the
next advance promotes. -/
theorem promotion_ordering_witness :
    (advance (run initState [((0:Int), Op.enter 1 (some 5) 0 none),
        (0, .enter 2 (some 9) 0 none)]) 20).1.ready ≠
      (run initState [((0:Int), Op.enter 1 (some 5) 0 none),
        (0, .enter 2 (some 9) 0 none)]).ready ++ [(⟨9, 0, 2, none⟩, 20)] :=
  promotion_ordering
    [((0:Int), Op.enter 1 (some 5) 0 none), (0, .enter 2 (some 9) 0 none)]
    ⟨5, 0, 1, none⟩ ⟨9, 0, 2, none⟩ 20 (by decide) (by decide) (by decide)

/-- C6: an `enter` with the eta omitted is literally the same operation as
an `enter` whose eta equals the current time `t`; consequently, if the
generator is at the top of its loop and no other queued entry is due by
the time `tNext ≥ t` of the next advance, that advance promotes the
freshly entered payload (hint 0). -/
theorem immediate_entry (s : SchedState) (item : Nat) (priority : Int)
    (callback : Option Nat) (t tNext : Int)
    (hpc : s.pc = .top) (ht : t ≤ tNext)
    (hfuture : ∀ e ∈ s.q, tNext < e.eta) :
    enter s t item none priority callback =
      enter s t item (some t) priority callback
    ∧ advance (enter s t item none priority callback) tNext =
        ({ q := s.q,
           ready := s.ready ++ [(⟨t, priority, item, callback⟩, tNext)],
           fired := s.fired ++ callback.toList,
           pc := .afterBody }, some 0) := by
  constructor
  · rfl
  · have hq : heappush s.q ⟨t, priority, item, callback⟩ =
        ⟨t, priority, item, callback⟩ :: s.q :=
      heappush_eq_cons (fun x hx => lt_of_le_of_lt ht (hfuture x hx))
    obtain ⟨q, ready, fired, pc⟩ := s
    simp only at hpc hq ⊢
    subst hpc
    simp only [enter, Option.getD, hq]
    have hnlt : ¬ tNext < t := not_lt.mpr ht
    simp [advance, hnlt]

/-- Witness for C6: entering with no eta into an empty frontier and
advancing at the same time promotes the payload. -/
theorem immediate_entry_witness :
    enter ⟨[], [], [], .top⟩ 4 9 none 0 none =
      enter ⟨[], [], [], .top⟩ 4 9 (some 4) 0 none
    ∧ advance (enter ⟨[], [], [], .top⟩ 4 9 none 0 none) 4 =
        (⟨[], [(⟨4, 0, 9, none⟩, 4)], [], .afterBody⟩, some 0) := by
  have h := immediate_entry ⟨[], [], [], .top⟩ 9 0 none 4 4 rfl le_rfl
    (by intro e he; simp at he)
  simpa using h

/-- C7: reading the `queue` property on any reachable scheduler state
returns the scheduled entries in ascending (due_time, priority) order (it
equals the frontier of the sorted-list heap model) and leaves the state
exactly as it was: emptiness and the behaviour of any subsequent advance
are as if the snapshot had not been taken. -/
theorem snapshot_pure (ops : List (Int × Op)) (t : Int) :
    (queueSnapshot (run initState ops)).2 = run initState ops
    ∧ (queueSnapshot (run initState ops)).1 = (run initState ops).q
    ∧ List.Pairwise keyLe (queueSnapshot (run initState ops)).1
    ∧ emptyFn (queueSnapshot (run initState ops)).2 = emptyFn (run initState ops)
    ∧ advance (queueSnapshot (run initState ops)).2 t =
        advance (run initState ops) t := by
  refine ⟨rfl, drainHeap_eq _, ?_, rfl, rfl⟩
  rw [queueSnapshot, drainHeap_eq]
  exact (sorted_run ops initState (by simp [initState])).imp entryLe_keyLe

lemma mem_revokedAdd (r : List Val) (t : Val) : t ∈ revokedAdd r t := by
  unfold revokedAdd
  by_cases h : t ∈ r
  · simpa [h]
  · simp [h]

/-- Counterexample to C3 as stated: the name "hostname" is found on the
control panel (it is an instance attribute set in `Control.__init__`) but
is not marked exposed; `execute` then evaluates `control.exposed`, which
raises an `AttributeError` that propagates to the caller, and nothing is
logged — instead of the claimed "no such control command" error log. -/
theorem execute_unexposed_counterexample :
    panelAttr "hostname" = some .plainAttr
    ∧ execute ⟨[], [], []⟩ "hostname" [] = (⟨[], [], []⟩, .error .attrError) := by
  constructor
  · decide
  · rfl

/-- C3 amended: for a command name not found on the panel at all, `execute`
logs the error "No such control command: ..." and returns nothing, letting
no exception propagate; but for a name that is found on the panel without
an exposed marker, an `AttributeError` (from evaluating `control.exposed`)
propagates to the caller and nothing is logged. -/
theorem execute_unknown_command (st : WorkerState) (command : String)
    (kwargs : List (String × Val)) :
    (panelAttr command = none →
      execute st command kwargs =
        ({ st with log := st.log ++
            [(.error, "No such control command: " ++ command)] }, .ok ()))
    ∧ (panelAttr command = some .plainAttr →
      execute st command kwargs = (st, .error .attrError)) := by
  constructor <;> intro h <;> simp [execute, h]

/-- Witness for the amended C3 at a concrete unknown command and a concrete
unexposed attribute. -/
theorem execute_unknown_command_witness :
    execute ⟨[], [], []⟩ "not_a_real_command" [] =
      (⟨[], [], [(.error, "No such control command: not_a_real_command")]⟩,
       .ok ())
    ∧ execute ⟨[], [], []⟩ "logger" [] = (⟨[], [], []⟩, .error .attrError) := by
  constructor
  · have h := (execute_unknown_command ⟨[], [], []⟩ "not_a_real_command" []).1
      (by decide)
    simpa using h
  · exact (execute_unknown_command ⟨[], [], []⟩ "logger" []).2 (by decide)

/-- Counterexample to C4 as stated: a message whose destination is the
falsy string "", which differs from the worker's hostname "this-host", is
nevertheless dispatched (the source tests `if not destination or ...`), so
it does have a side effect: the task id lands in the revocation set. -/
theorem dispatch_destination_counterexample :
    Val.str "" ≠ Val.str "this-host"
    ∧ (dispatch_from_message ⟨[], [], []⟩ "this-host"
        [("command", .str "revoke"), ("destination", .str ""),
         ("task_id", .str "X")]).1.revoked = [.str "X"] := by
  constructor
  · decide
  · decide

/-- C4 amended: a message whose destination is present, truthy and
different from this worker's hostname is dropped with no side effect; a
message whose destination is absent, falsy (for example the empty string)
or equal to the hostname has `execute` invoked on its command with the
remaining fields as keyword arguments — in particular a revoke message
leaves its task id in the revocation set. -/
theorem dispatch_addressing (st : WorkerState) (hostname : String)
    (message : List (String × Val)) :
    (∀ c d, kwLookup message "command" = some c →
      kwLookup (eraseKey message "command") "destination" = some d →
      d.truthy = true → d ≠ .str hostname →
      dispatch_from_message st hostname message = (st, message, .ok ()))
    ∧ (∀ name, kwLookup message "command" = some (.str name) →
      (kwLookup (eraseKey message "command") "destination" = none ∨
       (∃ d, kwLookup (eraseKey message "command") "destination" = some d ∧
         d.truthy = false) ∨
       kwLookup (eraseKey message "command") "destination" =
         some (.str hostname)) →
      dispatch_from_message st hostname message =
        ((execute st name
            (eraseKey (eraseKey message "command") "destination")).1,
         message,
         (execute st name
            (eraseKey (eraseKey message "command") "destination")).2))
    ∧ (∀ tid, kwLookup message "command" = some (.str "revoke") →
      (kwLookup (eraseKey message "command") "destination" = none ∨
       (∃ d, kwLookup (eraseKey message "command") "destination" = some d ∧
         d.truthy = false) ∨
       kwLookup (eraseKey message "command") "destination" =
         some (.str hostname)) →
      kwLookup (eraseKey (eraseKey message "command") "destination")
          "task_id" = some tid →
      tid ∈ (dispatch_from_message st hostname message).1.revoked) := by
  refine ⟨?_, ?_, ?_⟩
  · intro c d hc hd htruthy hne
    have hbeq : (d == Val.str hostname) = false := by
      simpa using hne
    simp [dispatch_from_message, hc, hd, htruthy, hbeq]
  · intro name hc hd
    rcases hd with hd | ⟨d, hd, hdf⟩ | hd
    · simp [dispatch_from_message, hc, hd]
    · simp [dispatch_from_message, hc, hd, hdf]
    · simp [dispatch_from_message, hc, hd, Val.truthy]
  · intro tid hc hd htid
    have hexec :
        dispatch_from_message st hostname message =
          ((execute st "revoke"
              (eraseKey (eraseKey message "command") "destination")).1,
           message,
           (execute st "revoke"
              (eraseKey (eraseKey message "command") "destination")).2) := by
      rcases hd with hd | ⟨d, hd, hdf⟩ | hd
      · simp [dispatch_from_message, hc, hd]
      · simp [dispatch_from_message, hc, hd, hdf]
      · simp [dispatch_from_message, hc, hd, Val.truthy]
    rw [hexec]
    simp [execute, panelAttr, invokeCommand, htid, Control.revoke]
    exact mem_revokedAdd st.revoked tid

/-- Witness for the amended C4: the spec's addressing test, on a worker
whose hostname is "this-host", plus a falsy (empty-string) destination. -/
theorem dispatch_addressing_witness :
    dispatch_from_message ⟨[], [], []⟩ "this-host"
      [("command", .str "revoke"), ("destination", .str "other-host"),
       ("task_id", .str "X")] =
      (⟨[], [], []⟩,
       [("command", .str "revoke"), ("destination", .str "other-host"),
        ("task_id", .str "X")], .ok ())
    ∧ Val.str "X" ∈ (dispatch_from_message ⟨[], [], []⟩ "this-host"
        [("command", .str "revoke"), ("task_id", .str "X")]).1.revoked
    ∧ Val.str "X" ∈ (dispatch_from_message ⟨[], [], []⟩ "this-host"
        [("command", .str "revoke"), ("destination", .str ""),
         ("task_id", .str "X")]).1.revoked
    ∧ Val.str "X" ∈ (dispatch_from_message ⟨[], [], []⟩ "this-host"
        [("command", .str "revoke"), ("destination", .str "this-host"),
         ("task_id", .str "X")]).1.revoked := by
  refine ⟨?_, ?_, ?_, ?_⟩
  · exact (dispatch_addressing ⟨[], [], []⟩ "this-host"
      [("command", .str "revoke"), ("destination", .str "other-host"),
       ("task_id", .str "X")]).1 (.str "revoke") (.str "other-host")
      (by decide) (by decide) (by decide) (by decide)
  · exact (dispatch_addressing ⟨[], [], []⟩ "this-host"
      [("command", .str "revoke"), ("task_id", .str "X")]).2.2 (.str "X")
      (by decide) (Or.inl (by decide)) (by decide)
  · exact (dispatch_addressing ⟨[], [], []⟩ "this-host"
      [("command", .str "revoke"), ("destination", .str ""),
       ("task_id", .str "X")]).2.2 (.str "X")
      (by decide) (Or.inr (Or.inl ⟨.str "", by decide, by decide⟩))
      (by decide)
  · exact (dispatch_addressing ⟨[], [], []⟩ "this-host"
      [("command", .str "revoke"), ("destination", .str "this-host"),
       ("task_id", .str "X")]).2.2 (.str "X")
      (by decide) (Or.inr (Or.inr (by decide))) (by decide)

/-- C8: `Control.rate_limit` with a task name absent from the registry
returns with the worker state completely unchanged — nothing raised,
nothing logged, no registry entry created; with the task name present it
rewrites exactly that descriptor's rate_limit field in place (the
descriptor's other configuration and all other bindings are untouched)
and emits one warn log line. -/
theorem rate_limit_no_op (st : WorkerState) (name : String) (rl : Val)
    (d : TaskDescr) :
    (registryGet st.registry name = none →
      Control.rate_limit st (.str name) rl = st)
    ∧ (registryGet st.registry name = some d →
      (Control.rate_limit st (.str name) rl).revoked = st.revoked
      ∧ (Control.rate_limit st (.str name) rl).registry =
          st.registry.map (fun p =>
            if p.1 == name then (p.1, { rate_limit := rl, config := d.config })
            else p)
      ∧ ∃ msg, (Control.rate_limit st (.str name) rl).log =
          st.log ++ [(.warn, msg)]) := by
  constructor
  · intro h
    simp [Control.rate_limit, h]
  · intro h
    by_cases htr : rl.truthy
    · refine ⟨?_, ?_, ?_⟩ <;>
        simp [Control.rate_limit, h, htr, registrySet]
    · refine ⟨?_, ?_, ?_⟩ <;>
        simp [Control.rate_limit, h, htr, registrySet]

/-- Witness for C8: an absent task type is a silent no-op; a present one
gets exactly its rate_limit field rewritten. -/
theorem rate_limit_no_op_witness :
    Control.rate_limit ⟨[], [("t", ⟨.rate none, 3⟩)], []⟩
      (.str "nonexistent-type") (.rate (some 5)) =
      ⟨[], [("t", ⟨.rate none, 3⟩)], []⟩
    ∧ (Control.rate_limit ⟨[], [("t", ⟨.rate none, 3⟩)], []⟩
        (.str "t") (.rate (some 5))).registry =
        [("t", ⟨.rate (some 5), 3⟩)] := by
  constructor
  · exact (rate_limit_no_op ⟨[], [("t", ⟨.rate none, 3⟩)], []⟩
      "nonexistent-type" (.rate (some 5)) ⟨.rate none, 3⟩).1 (by decide)
  · have h := ((rate_limit_no_op ⟨[], [("t", ⟨.rate none, 3⟩)], []⟩
      "t" (.rate (some 5)) ⟨.rate none, 3⟩).2 (by decide)).2.1
    rw [h]
    decide

/-- C9: `dispatch_from_message` never mutates the caller's message: the
source copies the mapping (`message = dict(message)`) before popping
`command` and `destination`, so for every message the caller's object
still holds every original field after dispatch. -/
theorem dispatch_message_unchanged (st : WorkerState) (hostname : String)
    (message : List (String × Val)) :
    (dispatch_from_message st hostname message).2.1 = message := by
  unfold dispatch_from_message
  dsimp only
  split
  · rfl
  · split
    · split <;> rfl
    · rfl

/-- C10: a message with no "command" key makes `dispatch_from_message`
raise `KeyError` (from `message.pop("command")`) before the addressing
check: no handler runs, nothing is logged, no state changes, and the
error propagates to the caller. -/
theorem dispatch_missing_command (st : WorkerState) (hostname : String)
    (message : List (String × Val))
    (h : kwLookup message "command" = none) :
    dispatch_from_message st hostname message =
      (st, message, .error .keyError) := by
  simp [dispatch_from_message, h]

/-- Witness for C10 at a concrete command-less message. -/
theorem dispatch_missing_command_witness :
    dispatch_from_message ⟨[], [], []⟩ "this-host"
      [("task_id", .str "X")] =
      (⟨[], [], []⟩, [("task_id", .str "X")], .error .keyError) :=
  dispatch_missing_command ⟨[], [], []⟩ "this-host"
    [("task_id", .str "X")] (by decide)

end CeleryWorker
